import Mathlib

/-
Shallow embedding of src/nmrplot/core.py (class Spectrum).

Intensities are modelled by rationals (ℚ): the Python code computes with
numpy floating point, which we idealize as exact arithmetic.  Methods that
can raise a Python exception are embedded as functions returning
`Spectrum × Option PyError`: the first component is the state of the
object after the call (Python objects keep the attributes already
assigned when an exception is raised), the second is the exception, if
any.  Methods whose bodies contain no raising operation are embedded as
plain state transformers.
-/

namespace Nmrplot

/-- Python exceptions relevant to the embedded methods.
`valueError msg` is a Python `ValueError` carrying its message (raised by
the sign dispatch in `calc_threshold` / `calc_clevs`).
`nonFiniteRange` stands for the `ValueError` numpy's `histogram` raises
when the data contains non-finite entries (its autodetected range is then
not finite); ℚ cannot represent inf/nan, so this is modelled as an
explicit case where the Python code produces non-finite values.
`unboundLocal v` is a Python `UnboundLocalError` for local variable `v`. -/
inductive PyError where
  | valueError (msg : String)
  | nonFiniteRange
  | unboundLocal (v : String)
deriving DecidableEq

/-- The attribute state of a `core.Spectrum` object.  `data` is the
(flattened) intensity array: every statistic in the source operates on the
flattened values, so the element order carries all the information the
embedded methods need.  `ndim` is the array rank, `ppm_ranges` the
flattened per-dimension (high, low) ppm bounds. -/
structure Spectrum where
  data : List ℚ
  ndim : ℕ
  sign : String
  normalized : Bool
  baseline : ℚ
  signal : ℚ
  noise : ℚ
  snr : ℚ
  threshold : ℚ
  clevs : List ℚ
  ppm_ranges : List ℚ
deriving DecidableEq

/-- Minimum of a list of rationals (numpy `min` over a nonempty array;
0 for the empty list, a case none of the source call sites reach). -/
def listMin : List ℚ → ℚ
  | [] => 0
  | x :: xs => xs.foldl min x

/-- Maximum of a list of rationals (numpy `max`; 0 for the empty list). -/
def listMax : List ℚ → ℚ
  | [] => 0
  | x :: xs => xs.foldl max x

/-- Index of the first maximal entry: `l` is the remaining list, `i` the
index of its head in the original list, `bi`/`bv` the best index and value
seen so far.  Mirrors `np.argmax`, which returns the first occurrence. -/
def argmaxAux : List ℕ → ℕ → ℕ → ℕ → ℕ
  | [], _, bi, _ => bi
  | x :: xs, i, bi, bv => if bv < x then argmaxAux xs (i + 1) i x else argmaxAux xs (i + 1) bi bv

/-- `np.argmax` over a list of counts (0 on the empty list). -/
def argmax : List ℕ → ℕ
  | [] => 0
  | x :: xs => argmaxAux xs 1 0 x

/-- skimage's `histogram` default bin count. -/
def nbins : ℕ := 256

/-- The histogram range: numpy/skimage use `(min, max)` of the data; a
degenerate range with `min = max` is widened to `(min - 0.5, max + 0.5)`,
and an empty array falls back to numpy's default range `(0, 1)`. -/
def histRange (data : List ℚ) : ℚ × ℚ :=
  if data.isEmpty then (0, 1)
  else if listMin data = listMax data then (listMin data - 1/2, listMax data + 1/2)
  else (listMin data, listMax data)

/-- The bin an intensity falls into: `nbins` equal-width bins starting at
`lo`; the floor division matches numpy's half-open bins, and clipping to
the last bin matches numpy's closed rightmost bin. -/
def binIndex (lo w x : ℚ) : ℕ :=
  min (Int.toNat ⌊(x - lo) / w⌋) (nbins - 1)

/-- Per-bin occupancy counts of the histogram. -/
def histCounts (data : List ℚ) (lo w : ℚ) : List ℕ :=
  (List.range nbins).map (fun j => data.countP (fun x => decide (binIndex lo w x = j)))

/-- The bin centers returned by skimage's `histogram` for float data
(midpoints of consecutive `np.histogram` bin edges). -/
def binCenters (lo w : ℚ) : List ℚ :=
  (List.range nbins).map (fun j : ℕ => lo + w * (j : ℚ) + w / 2)

/-- Embeds `Spectrum.calc_histogram`: skimage `histogram` of the flattened
data, returning `(counts, bin_centers)`. -/
def calc_histogram (data : List ℚ) : List ℕ × List ℚ :=
  let r := histRange data
  let w := (r.2 - r.1) / (nbins : ℚ)
  (histCounts data r.1 w, binCenters r.1 w)

/-- Embeds `Spectrum.calc_baseline`: the bin-center value of the modal
(highest-count, first on ties) histogram bin. -/
def calc_baseline (data : List ℚ) : ℚ :=
  let h := calc_histogram data
  h.2.getD (argmax h.1) 0

/-- Insert into a sorted list, keeping it ascending. -/
def insertSorted (x : ℚ) : List ℚ → List ℚ
  | [] => [x]
  | y :: ys => if x ≤ y then x :: y :: ys else y :: insertSorted x ys

/-- Ascending sort (insertion sort; `np.quantile` sorts its input). -/
def sortQ (l : List ℚ) : List ℚ :=
  l.foldr insertSorted []

/-- Embeds `np.quantile(l, q)` with the default linear interpolation:
with `s` the sorted data and `pos = q * (n - 1)`, interpolate between
`s[⌊pos⌋]` and the next order statistic. -/
def quantileQ (l : List ℚ) (q : ℚ) : ℚ :=
  let s := sortQ l
  let pos : ℚ := q * ((s.length : ℚ) - 1)
  let i : ℕ := Int.toNat ⌊pos⌋
  let lo := s.getD i 0
  let hi := s.getD (i + 1) lo
  lo + (pos - (⌊pos⌋ : ℚ)) * (hi - lo)

/-- The "empty region" of `calc_signal_to_noise`: the entries strictly
below the 10th percentile of the whole array. -/
def emptyRegion (data : List ℚ) : List ℚ :=
  data.filter (fun x => decide (x < quantileQ data (1/10)))

/-- numpy `mean` (0 on the empty list, where numpy warns and yields nan). -/
def meanQ (l : List ℚ) : ℚ :=
  l.sum / (l.length : ℚ)

/-- numpy population variance, the square of `std`.  The source stores
`empty.std()`; a rational has no square root, so the embedding stores the
variance instead: it is zero exactly when the standard deviation is zero,
which is the only property of the stored noise the analysed behaviour
depends on.  For an empty list numpy's `std` is nan (with a
RuntimeWarning, not an exception); that degenerate value is modelled as 0. -/
def varianceQ (l : List ℚ) : ℚ :=
  meanQ (l.map (fun x => (x - meanQ l) ^ 2))

/-- Embeds `Spectrum.calc_signal_to_noise`.  The body contains no raising
operation: `signal` is the absolute-value maximum of the data (the sign
attribute is not consulted), `noise` the std (here: variance, see
`varianceQ`) of the empty region, and `snr = signal / noise` is a plain
numpy division — a zero or nan `noise` silently yields inf/nan (modelled
by ℚ's division-by-zero convention), never an exception. -/
def calc_signal_to_noise (s : Spectrum) : Spectrum :=
  let signal := listMax (s.data.map (fun x => |x|))
  let noise := varianceQ (emptyRegion s.data)
  { s with signal := signal, noise := noise, snr := signal / noise }

/-- Embeds `Spectrum.normalize_data`:
`self.data = (self.data - self.baseline) / abs(self.baseline)`, then
`self.calc_baseline()`, then `self.normalized = True`.  There is no guard
on the baseline.  When `baseline = 0`, numpy's float division yields
non-finite entries (inf/nan) without raising, and the subsequent histogram
inside `calc_baseline` then raises a `ValueError` (non-finite range), so
the call fails *after* `data` has been overwritten and before
`normalized` is set; ℚ has no infinities, so that failure path is the
explicit `baseline = 0` case below. -/
def normalize_data (s : Spectrum) : Spectrum × Option PyError :=
  let d := s.data.map (fun x => (x - s.baseline) / |s.baseline|)
  if s.baseline = 0 then ({ s with data := d }, some .nonFiniteRange)
  else ({ s with data := d, baseline := calc_baseline d, normalized := true }, none)

/-- The message of the `ValueError` raised on an unknown sign, exactly as
formatted in `calc_threshold` and `calc_clevs`. -/
def signMessage (sg : String) : String :=
  "Unknown sign: " ++ sg ++ "\nPlease choose a valid sign: negative, positive or both"

/-- Embeds `Spectrum.calc_threshold` (with its `signal_fraction`
argument, default 0.01 at the source call sites).  The sign dispatch
checks "both", then "positive", then "negative", and otherwise raises a
`ValueError` before assigning anything. -/
def calc_threshold (s : Spectrum) (signal_fraction : ℚ) : Spectrum × Option PyError :=
  if s.sign = "both" then
    ({ s with threshold := s.signal * signal_fraction / s.noise }, none)
  else if s.sign = "positive" then
    ({ s with threshold := listMax s.data * signal_fraction / s.noise }, none)
  else if s.sign = "negative" then
    ({ s with threshold := |listMin s.data * signal_fraction| / s.noise }, none)
  else (s, some (.valueError (signMessage s.sign)))

/-- The positive ladder `start_clev * factor ** np.arange(nlevs)`. -/
def posClevs (start factor : ℚ) (nlevs : ℕ) : List ℚ :=
  (List.range nlevs).map (fun k => start * factor ^ k)

/-- The negative ladder `-np.flip(start_clev * factor ** np.arange(nlevs))`:
the positive ladder reversed, then negated. -/
def negClevs (start factor : ℚ) (nlevs : ℕ) : List ℚ :=
  ((posClevs start factor nlevs).reverse).map (fun x => -x)

/-- Embeds `Spectrum.calc_clevs`: `start_clev = baseline + threshold *
noise`; "both" concatenates the negative ladder and the positive ladder,
"positive"/"negative" store one ladder, and any other sign raises a
`ValueError` before assigning anything. -/
def calc_clevs (s : Spectrum) (nlevs : ℕ) (factor : ℚ) : Spectrum × Option PyError :=
  let start_clev := s.baseline + s.threshold * s.noise
  if s.sign = "both" then
    ({ s with clevs := negClevs start_clev factor nlevs ++ posClevs start_clev factor nlevs },
      none)
  else if s.sign = "positive" then
    ({ s with clevs := posClevs start_clev factor nlevs }, none)
  else if s.sign = "negative" then
    ({ s with clevs := negClevs start_clev factor nlevs }, none)
  else (s, some (.valueError (signMessage s.sign)))

/-- The contour levels stored by a `calc_clevs` call (the post-call state's
`clevs` attribute). -/
def clevsOf (s : Spectrum) (nlevs : ℕ) (factor : ℚ) : List ℚ :=
  (calc_clevs s nlevs factor).1.clevs

/-- Per-dimension acquisition metadata, as read from the Bruker universal
dictionary: sweep width `sw` (Hz), observed frequency `obs` (MHz), carrier
frequency `car` (Hz), and the number of points `size`. -/
structure DimMeta where
  sw : ℚ
  obs : ℚ
  car : ℚ
  size : ℕ
deriving DecidableEq

/-- Modelled from the spec: the per-dimension ppm bounds come from
nmrglue's unit converter (`ng.fileiobase.uc_from_udic(...).ppm_limits()`),
which is external to this repository.  Per the spec, the bounds are the
carrier-frequency-relative limits of `sweepWidth / observedFrequency`,
returned as (high, low): the chemical shift of the first point,
`car/obs + sw/(2*obs)`, then that of the last point, one sweep minus one
point-spacing lower. -/
def ppm_limits (d : DimMeta) : ℚ × ℚ :=
  let high := d.car / d.obs + d.sw / (2 * d.obs)
  (high, high - d.sw * ((d.size : ℚ) - 1) / ((d.size : ℚ) * d.obs))

/-- Embeds `Spectrum.get_ppm_ranges`: one `(high, low)` ppm pair per
dimension, dimensions traversed in reverse (directly detected dimension
first), flattened into a single list. -/
def get_ppm_ranges (dims : List DimMeta) : List ℚ :=
  (dims.reverse).foldr (fun d acc => (ppm_limits d).1 :: (ppm_limits d).2 :: acc) []

/-- Embeds the rank dispatch of `Spectrum.plot_spectrum` (the rendering
itself is external matplotlib work with no effect on the object state).
For `ndim == 2` the method first calls `self.calc_clevs(nlevs, factor)`,
whose `ValueError` on an invalid sign propagates.  For any other rank the
`else` branch only prints "The spectrum is not 1D or 2D", after which the
function's unconditional `return fig, ax` reads the never-assigned locals
`fig`/`ax` and raises `UnboundLocalError`. -/
def plot_spectrum (s : Spectrum) (nlevs : ℕ) (factor : ℚ) : Spectrum × Option PyError :=
  if s.ndim = 1 then (s, none)
  else if s.ndim = 2 then calc_clevs s nlevs factor
  else (s, some (.unboundLocal "fig"))

/-- A blank spectrum state used to build concrete test states. -/
def baseSpec : Spectrum :=
  { data := [], ndim := 1, sign := "positive", normalized := false, baseline := 0,
    signal := 0, noise := 0, snr := 0, threshold := 0, clevs := [], ppm_ranges := [] }

/-- Rank-1 state with mixed-sign data: the algebraic maximum is 1 but the
largest magnitude is 5. -/
def sPosData : Spectrum := { baseSpec with data := [-5, 1], sign := "positive" }

/-- The spec's synthetic array: mode 0, one outlier peak of 100. -/
def sPeak : Spectrum := { baseSpec with data := [0, 0, 0, 0, 100, 0, 0, 0, 0] }

/-- A state whose stored baseline is zero. -/
def sZeroBase : Spectrum := { baseSpec with data := [1, 2, 3], baseline := 0 }

/-- Non-constant data whose histogram-mode baseline is 1/2 (bins of width 1
over [0, 256]; the modal bin is the first, centered at 1/2), stored
consistently in the baseline attribute. -/
def sQuad : Spectrum := { baseSpec with data := [0, 0, 0, 256], baseline := 1/2 }

/-- A state with the illegal sign "up" and nonzero threshold/contour
state, to observe that a failed call leaves them untouched. -/
def sUp : Spectrum := { baseSpec with sign := "up", threshold := 7, clevs := [9] }

/-- Sign "both" with a nonzero baseline 1 (start level 2). -/
def sBothOne : Spectrum :=
  { baseSpec with sign := "both", baseline := 1, threshold := 1, noise := 1 }

/-- Sign "both" with zero baseline (start level 1). -/
def sBothZero : Spectrum := { baseSpec with sign := "both", threshold := 1, noise := 1 }

/-- Sign "negative" with zero baseline (start level 1). -/
def sNegOne : Spectrum := { baseSpec with sign := "negative", threshold := 1, noise := 1 }

/-- Sign "positive" with zero baseline (start level 1). -/
def sPosOne : Spectrum := { baseSpec with threshold := 1, noise := 1 }

/-- Sign "positive" with a negative start level (baseline -1, zero
threshold). -/
def sPosNegStart : Spectrum := { baseSpec with baseline := -1, noise := 1 }

/-- A rank-3 state, unsupported by the plotting logic. -/
def s3d : Spectrum := { baseSpec with ndim := 3 }

/-- One dimension of metadata: sweep width 2, observed frequency 1,
carrier 10, 4 points. -/
def dim1 : DimMeta := ⟨2, 1, 10, 4⟩

theorem posClevs_length (s f : ℚ) (n : ℕ) : (posClevs s f n).length = n := by
  simp [posClevs]

theorem posClevs_getD (s f : ℚ) {n i : ℕ} (h : i < n) :
    (posClevs s f n).getD i 0 = s * f ^ i := by
  simp [posClevs, List.getD_eq_getElem?_getD, List.getElem?_map, List.getElem?_range h]

theorem negClevs_length (s f : ℚ) (n : ℕ) : (negClevs s f n).length = n := by
  simp [negClevs, posClevs]

theorem negClevs_getD (s f : ℚ) {n i : ℕ} (h : i < n) :
    (negClevs s f n).getD i 0 = -(s * f ^ (n - 1 - i)) := by
  have hrev : (posClevs s f n).reverse[i]? = (posClevs s f n)[n - 1 - i]? := by
    rw [List.getElem?_reverse (by simpa [posClevs] using h), posClevs_length]
  have h2 : n - 1 - i < n := by omega
  rw [negClevs, List.getD_eq_getElem?_getD, List.getElem?_map, hrev]
  simp [posClevs, List.getElem?_map, List.getElem?_range h2]

theorem pow_lt_pow_succ {f : ℚ} (hf : 1 < f) (i : ℕ) : f ^ i < f ^ (i + 1) := by
  have h0 : 0 < f := lt_trans zero_lt_one hf
  calc f ^ i = f ^ i * 1 := by ring
  _ < f ^ i * f := by
      exact mul_lt_mul_of_pos_left hf (pow_pos h0 i)
  _ = f ^ (i + 1) := by ring

theorem posClevs_pos {s f : ℚ} (hs : 0 < s) (hf : 1 < f) {n i : ℕ} (h : i < n) :
    0 < (posClevs s f n).getD i 0 := by
  rw [posClevs_getD s f h]
  exact mul_pos hs (pow_pos (lt_trans zero_lt_one hf) i)

theorem argmaxAux_lt (l : List ℕ) : ∀ (i bi bv n : ℕ), bi < n → i + l.length ≤ n →
    argmaxAux l i bi bv < n := by
  induction l with
  | nil =>
    intro i bi bv n h _
    simpa [argmaxAux] using h
  | cons x xs ih =>
    intro i bi bv n h hlen
    simp only [List.length_cons] at hlen
    simp only [argmaxAux]
    split
    · exact ih (i + 1) i x n (by omega) (by omega)
    · exact ih (i + 1) bi bv n h (by omega)

theorem argmax_lt (l : List ℕ) (hl : l ≠ []) : argmax l < l.length := by
  cases l with
  | nil => exact absurd rfl hl
  | cons x xs =>
    simpa [argmax] using argmaxAux_lt xs 1 0 x (xs.length + 1) (by omega) (by omega)

theorem get_ppm_ranges_cons (d : DimMeta) (rest : List DimMeta) :
    (rest ++ [d]).reverse.foldr
        (fun d acc => (ppm_limits d).1 :: (ppm_limits d).2 :: acc) [] =
      (ppm_limits d).1 :: (ppm_limits d).2 ::
        rest.reverse.foldr (fun d acc => (ppm_limits d).1 :: (ppm_limits d).2 :: acc) [] := by
  simp

theorem foldr_ppm_length (dims : List DimMeta) :
    (dims.foldr (fun d acc => (ppm_limits d).1 :: (ppm_limits d).2 :: acc) []).length =
      2 * dims.length := by
  induction dims with
  | nil => rfl
  | cons d rest ih =>
    simp only [List.foldr_cons, List.length_cons, List.length_cons, ih, List.length_cons]
    omega

theorem foldr_ppm_getD (dims : List DimMeta) :
    ∀ i, i < dims.length →
      (dims.foldr (fun d acc => (ppm_limits d).1 :: (ppm_limits d).2 :: acc) []).getD (2 * i) 0 =
          (ppm_limits (dims.getD i ⟨0, 1, 0, 2⟩)).1 ∧
        (dims.foldr (fun d acc => (ppm_limits d).1 :: (ppm_limits d).2 :: acc) []).getD
            (2 * i + 1) 0 =
          (ppm_limits (dims.getD i ⟨0, 1, 0, 2⟩)).2 := by
  induction dims with
  | nil =>
    intro i hi
    simp at hi
  | cons d rest ih =>
    intro i hi
    cases i with
    | zero => simp
    | succ j =>
      have hj : j < rest.length := by simpa using hi
      have h2 : 2 * (j + 1) = (2 * j + 1) + 1 := by omega
      simp only [List.foldr_cons, h2, List.getD_cons_succ, List.getD_cons_succ]
      exact ih j hj

theorem ppm_limits_gt (d : DimMeta) (hsw : 0 < d.sw) (hobs : 0 < d.obs) (hsz : 2 ≤ d.size) :
    (ppm_limits d).1 > (ppm_limits d).2 := by
  unfold ppm_limits
  have h1 : (0 : ℚ) < (d.size : ℚ) := by
    have : (0 : ℚ) < (2 : ℚ) := by norm_num
    calc (0 : ℚ) < 2 := this
    _ ≤ (d.size : ℚ) := by exact_mod_cast hsz
  have h2 : (0 : ℚ) < (d.size : ℚ) - 1 := by
    have : (2 : ℚ) ≤ (d.size : ℚ) := by exact_mod_cast hsz
    linarith
  have h3 : 0 < d.sw * ((d.size : ℚ) - 1) / ((d.size : ℚ) * d.obs) :=
    div_pos (mul_pos hsw h2) (mul_pos h1 hobs)
  simp only [gt_iff_lt]
  linarith

theorem affine_mono (b c : ℚ) (hc : 0 < c) : Monotone (fun x : ℚ => (x - b) / c) := by
  intro x y h
  exact (div_le_div_iff_of_pos_right hc).mpr (sub_le_sub_right h b)

theorem foldl_min_map (b c : ℚ) (hc : 0 < c) (l : List ℚ) (a : ℚ) :
    (l.map (fun x => (x - b) / c)).foldl min ((a - b) / c) = (l.foldl min a - b) / c := by
  induction l generalizing a with
  | nil => rfl
  | cons x xs ih =>
    simp only [List.map_cons, List.foldl_cons]
    rw [← (affine_mono b c hc).map_min, ih]

theorem foldl_max_map (b c : ℚ) (hc : 0 < c) (l : List ℚ) (a : ℚ) :
    (l.map (fun x => (x - b) / c)).foldl max ((a - b) / c) = (l.foldl max a - b) / c := by
  induction l generalizing a with
  | nil => rfl
  | cons x xs ih =>
    simp only [List.map_cons, List.foldl_cons]
    rw [← (affine_mono b c hc).map_max, ih]

theorem listMin_map_affine (b c : ℚ) (hc : 0 < c) (l : List ℚ) (hl : l ≠ []) :
    listMin (l.map (fun x => (x - b) / c)) = (listMin l - b) / c := by
  cases l with
  | nil => exact absurd rfl hl
  | cons x xs => simpa [listMin] using foldl_min_map b c hc xs x

theorem listMax_map_affine (b c : ℚ) (hc : 0 < c) (l : List ℚ) (hl : l ≠ []) :
    listMax (l.map (fun x => (x - b) / c)) = (listMax l - b) / c := by
  cases l with
  | nil => exact absurd rfl hl
  | cons x xs => simpa [listMax] using foldl_max_map b c hc xs x

theorem binIndex_affine (b c lo w x : ℚ) (hc : 0 < c) (hw : w ≠ 0) :
    binIndex ((lo - b) / c) (w / c) ((x - b) / c) = binIndex lo w x := by
  have hc0 : c ≠ 0 := ne_of_gt hc
  have key : ((x - b) / c - (lo - b) / c) / (w / c) = (x - lo) / w := by
    field_simp
  rw [binIndex, binIndex, key]

theorem histCounts_map_affine (b c lo w : ℚ) (hc : 0 < c) (hw : w ≠ 0) (data : List ℚ) :
    histCounts (data.map (fun x => (x - b) / c)) ((lo - b) / c) (w / c) =
      histCounts data lo w := by
  unfold histCounts
  refine List.map_congr_left fun j _ => ?_
  rw [List.countP_map]
  refine List.countP_congr fun x _ => ?_
  simp [Function.comp, binIndex_affine b c lo w x hc hw]

theorem binCenters_affine (b c lo w : ℚ) (hc : c ≠ 0) :
    binCenters ((lo - b) / c) (w / c) = (binCenters lo w).map (fun x => (x - b) / c) := by
  unfold binCenters
  rw [List.map_map]
  refine List.map_congr_left fun j _ => ?_
  simp only [Function.comp]
  field_simp
  ring

theorem binCenters_length (lo w : ℚ) : (binCenters lo w).length = nbins := by
  rw [binCenters, List.length_map, List.length_range]

theorem histCounts_length (data : List ℚ) (lo w : ℚ) :
    (histCounts data lo w).length = nbins := by
  simp [histCounts]

theorem histCounts_ne_nil (data : List ℚ) (lo w : ℚ) : histCounts data lo w ≠ [] := by
  intro h
  have := histCounts_length data lo w
  rw [h] at this
  simp [nbins] at this

theorem getD_map_affine (b c : ℚ) (l : List ℚ) {k : ℕ} (hk : k < l.length) :
    (l.map (fun x => (x - b) / c)).getD k 0 = (l.getD k 0 - b) / c := by
  rw [List.getD_eq_getElem?_getD, List.getD_eq_getElem?_getD, List.getElem?_map]
  rw [List.getElem?_eq_getElem hk]
  rfl

theorem calc_baseline_affine (data : List ℚ) (b c : ℚ) (hc : 0 < c)
    (hne : listMin data < listMax data) :
    calc_baseline (data.map (fun x => (x - b) / c)) = (calc_baseline data - b) / c := by
  have hnil : data ≠ [] := by
    intro h
    rw [h] at hne
    simp [listMin, listMax] at hne
  have hnil2 : data.map (fun x => (x - b) / c) ≠ [] := by
    simpa using hnil
  have hmin := listMin_map_affine b c hc data hnil
  have hmax := listMax_map_affine b c hc data hnil
  have hne2 : listMin (data.map (fun x => (x - b) / c)) <
      listMax (data.map (fun x => (x - b) / c)) := by
    rw [hmin, hmax]
    exact (div_lt_div_iff_of_pos_right hc).mpr (sub_lt_sub_right hne b)
  have hr1 : histRange data = (listMin data, listMax data) := by
    rw [histRange, if_neg (by simpa [List.isEmpty_iff] using hnil), if_neg (ne_of_lt hne)]
  have hr2 : histRange (data.map (fun x => (x - b) / c)) =
      ((listMin data - b) / c, (listMax data - b) / c) := by
    rw [histRange, if_neg (by simpa [List.isEmpty_iff] using hnil2), if_neg (ne_of_lt hne2),
      hmin, hmax]
  have hwpos : 0 < (listMax data - listMin data) / (nbins : ℚ) := by
    apply div_pos
    · linarith
    · norm_num [nbins]
  have hw : (listMax data - listMin data) / (nbins : ℚ) ≠ 0 := ne_of_gt hwpos
  have hwq : ((listMax data - b) / c - (listMin data - b) / c) / (nbins : ℚ) =
      (listMax data - listMin data) / (nbins : ℚ) / c := by
    have hc0 : c ≠ 0 := ne_of_gt hc
    field_simp
    ring
  unfold calc_baseline calc_histogram
  rw [hr1, hr2]
  simp only
  rw [hwq, histCounts_map_affine b c (listMin data) ((listMax data - listMin data) / (nbins : ℚ))
    hc hw data, binCenters_affine b c (listMin data)
    ((listMax data - listMin data) / (nbins : ℚ)) (ne_of_gt hc)]
  have hargmax : argmax (histCounts data (listMin data)
      ((listMax data - listMin data) / (nbins : ℚ))) <
      (binCenters (listMin data) ((listMax data - listMin data) / (nbins : ℚ))).length := by
    rw [binCenters_length]
    have := argmax_lt _ (histCounts_ne_nil data (listMin data)
      ((listMax data - listMin data) / (nbins : ℚ)))
    rwa [histCounts_length] at this
  exact getD_map_affine b c _ hargmax

set_option maxRecDepth 100000

/-- C1 (counterexample): the derived signal statistic is not sign-aware.
For the spectrum with data [-5, 1] and sign = positive, the claim says the
signal is the algebraic maximum 1, but `calc_signal_to_noise` stores the
absolute-value maximum 5. -/
theorem signal_sign_aware_false :
    sPosData.sign = "positive" ∧ (calc_signal_to_noise sPosData).signal = 5 ∧
      listMax sPosData.data = 1 ∧ (5 : ℚ) ≠ 1 := by
  with_unfolding_all decide

/-- C1 (amended): the signal is always the absolute-value maximum of the
data, for every sign (the sign attribute is not consulted by
`calc_signal_to_noise`; the sign-aware max/min selection lives in
`calc_threshold`).  When all entries are nonnegative this coincides with
the algebraic maximum, so the claim's positive case holds there. -/
theorem signal_is_abs_max (s : Spectrum) :
    (calc_signal_to_noise s).signal = listMax (s.data.map (fun x => |x|)) ∧
    (calc_signal_to_noise s).signal = (calc_signal_to_noise { s with sign := "both" }).signal ∧
    ((∀ x ∈ s.data, 0 ≤ x) → (calc_signal_to_noise s).signal = listMax s.data) := by
  refine ⟨rfl, rfl, fun h => ?_⟩
  have : s.data.map (fun x => |x|) = s.data := by
    calc s.data.map (fun x => |x|) = s.data.map id :=
      List.map_congr_left fun x hx => abs_of_nonneg (h x hx)
    _ = s.data := List.map_id s.data
  show listMax (s.data.map (fun x => |x|)) = listMax s.data
  rw [this]

/-- C1 (witness): on the all-nonnegative array of `sPeak` the stored
signal equals both the absolute-value maximum and the algebraic maximum. -/
theorem signal_is_abs_max_witness :
    (calc_signal_to_noise sPeak).signal = listMax (sPeak.data.map (fun x => |x|)) ∧
      (calc_signal_to_noise sPeak).signal = listMax sPeak.data :=
  ⟨(signal_is_abs_max sPeak).1,
    (signal_is_abs_max sPeak).2.2 (by with_unfolding_all decide)⟩

/-- C4 (counterexample): on the array [0,0,0,0,100,0,0,0,0] the
noise/SNR computation returns a value instead of raising.  The sub-10th-
percentile region is empty (numpy's std of it is nan, emitted with a
RuntimeWarning, not an exception), the stored signal is 100, and the call
completes; no DegenerateNoiseError (or any exception) is raised — no such
error class exists in the code. -/
theorem snr_returns_on_zero_noise :
    emptyRegion sPeak.data = [] ∧ (calc_signal_to_noise sPeak).noise = 0 ∧
      (calc_signal_to_noise sPeak).signal = 100 := by
  with_unfolding_all decide

/-- C4 (amended): `calc_signal_to_noise` never raises: whenever the noise
estimate is zero (or nan, from an empty or constant empty region), the
call still completes, storing a zero noise and computing
snr = signal / noise by plain division (inf/nan in numpy). -/
theorem snr_no_error (s : Spectrum) (h : varianceQ (emptyRegion s.data) = 0) :
    (calc_signal_to_noise s).noise = 0 ∧
    (calc_signal_to_noise s).signal = listMax (s.data.map (fun x => |x|)) ∧
    (calc_signal_to_noise s).snr =
      (calc_signal_to_noise s).signal / (calc_signal_to_noise s).noise := by
  refine ⟨?_, rfl, rfl⟩
  show varianceQ (emptyRegion s.data) = 0
  exact h

/-- C4 (witness): the zero-noise completion at the concrete array of
`sPeak`. -/
theorem snr_no_error_witness :
    (calc_signal_to_noise sPeak).noise = 0 ∧
    (calc_signal_to_noise sPeak).signal = listMax (sPeak.data.map (fun x => |x|)) ∧
    (calc_signal_to_noise sPeak).snr =
      (calc_signal_to_noise sPeak).signal / (calc_signal_to_noise sPeak).noise :=
  snr_no_error sPeak (by with_unfolding_all decide)

/-- C5 (counterexample): with a zero stored baseline, `normalize_data`
performs the division anyway (the data attribute is overwritten), and the
failure that then surfaces is numpy's non-finite-range ValueError from the
baseline recomputation, not a DegenerateBaselineError guard (no such class
exists in the code). -/
theorem normalize_zero_baseline_divides :
    sZeroBase.baseline = 0 ∧
    (normalize_data sZeroBase).1.data =
      sZeroBase.data.map (fun x => (x - sZeroBase.baseline) / |sZeroBase.baseline|) ∧
    (normalize_data sZeroBase).1.data ≠ sZeroBase.data ∧
    (normalize_data sZeroBase).2 = some PyError.nonFiniteRange := by
  with_unfolding_all decide

/-- C5 (amended): normalization has no baseline guard: for every spectrum
with zero baseline the division is performed unconditionally (data is
overwritten with what numpy makes non-finite values), the baseline and the
normalized flag are left as they were, and the error that surfaces is the
downstream numpy non-finite-range ValueError, after the mutation. -/
theorem normalize_no_guard (s : Spectrum) (h : s.baseline = 0) :
    (normalize_data s).1.data = s.data.map (fun x => (x - s.baseline) / |s.baseline|) ∧
    (normalize_data s).1.normalized = s.normalized ∧
    (normalize_data s).1.baseline = s.baseline ∧
    (normalize_data s).2 = some PyError.nonFiniteRange := by
  simp [normalize_data, h]

/-- C5 (witness): the unguarded division at the concrete zero-baseline
state. -/
theorem normalize_no_guard_witness :
    (normalize_data sZeroBase).1.data =
      sZeroBase.data.map (fun x => (x - sZeroBase.baseline) / |sZeroBase.baseline|) ∧
    (normalize_data sZeroBase).1.normalized = sZeroBase.normalized ∧
    (normalize_data sZeroBase).1.baseline = sZeroBase.baseline ∧
    (normalize_data sZeroBase).2 = some PyError.nonFiniteRange :=
  normalize_no_guard sZeroBase (by with_unfolding_all decide)

/-- C7: for every sign outside the three legal values, both
`calc_threshold` and `calc_clevs` fail with the ValueError whose message
names the offending value and the three legal values, and for each of the
three legal values both calls succeed without that error. -/
theorem invalid_sign_error (s : Spectrum) (f : ℚ) (nlevs : ℕ) (factor : ℚ) :
    ((s.sign ≠ "both" ∧ s.sign ≠ "positive" ∧ s.sign ≠ "negative") →
      (calc_threshold s f).2 = some (PyError.valueError (signMessage s.sign)) ∧
      (calc_clevs s nlevs factor).2 = some (PyError.valueError (signMessage s.sign)) ∧
      signMessage s.sign =
        "Unknown sign: " ++ s.sign ++
          "\nPlease choose a valid sign: negative, positive or both") ∧
    ((s.sign = "both" ∨ s.sign = "positive" ∨ s.sign = "negative") →
      (calc_threshold s f).2 = none ∧ (calc_clevs s nlevs factor).2 = none) := by
  constructor
  · rintro ⟨h1, h2, h3⟩
    refine ⟨?_, ?_, rfl⟩ <;> simp [calc_threshold, calc_clevs, h1, h2, h3]
  · rintro (h | h | h) <;> simp [calc_threshold, calc_clevs, h]

/-- C7 (witness): the sign "up" makes both calls fail with the message
naming it, and the legal sign "positive" makes both succeed. -/
theorem invalid_sign_error_witness :
    ((calc_threshold sUp (1/100)).2 = some (PyError.valueError (signMessage sUp.sign)) ∧
      (calc_clevs sUp 42 (11/10)).2 = some (PyError.valueError (signMessage sUp.sign)) ∧
      signMessage sUp.sign =
        "Unknown sign: " ++ sUp.sign ++
          "\nPlease choose a valid sign: negative, positive or both") ∧
    (calc_threshold sPosOne (1/100)).2 = none ∧ (calc_clevs sPosOne 42 (11/10)).2 = none :=
  ⟨(invalid_sign_error sUp (1/100) 42 (11/10)).1
      (by refine ⟨?_, ?_, ?_⟩ <;> with_unfolding_all decide),
    (invalid_sign_error sPosOne (1/100) 42 (11/10)).2 (Or.inr (Or.inl rfl))⟩

/-- C10: on an invalid sign, `calc_threshold` and `calc_clevs` raise
before assigning any attribute: the post-call object state is exactly the
pre-call state, in every field. -/
theorem invalid_sign_atomic (s : Spectrum) (f : ℚ) (nlevs : ℕ) (factor : ℚ)
    (h1 : s.sign ≠ "both") (h2 : s.sign ≠ "positive") (h3 : s.sign ≠ "negative") :
    calc_threshold s f = (s, some (PyError.valueError (signMessage s.sign))) ∧
    calc_clevs s nlevs factor = (s, some (PyError.valueError (signMessage s.sign))) := by
  constructor <;> simp [calc_threshold, calc_clevs, h1, h2, h3]

/-- C10 (witness): at the sign "up" state with nonzero stored threshold
and contour levels, both failing calls leave the whole state unchanged. -/
theorem invalid_sign_atomic_witness :
    calc_threshold sUp (1/100) = (sUp, some (PyError.valueError (signMessage sUp.sign))) ∧
    calc_clevs sUp 42 (11/10) = (sUp, some (PyError.valueError (signMessage sUp.sign))) :=
  invalid_sign_atomic sUp (1/100) 42 (11/10) (by with_unfolding_all decide)
    (by with_unfolding_all decide) (by with_unfolding_all decide)

/-- C8: for a rank-3 spectrum, `plot_spectrum` does not report a
non-fatal UnsupportedRankError: after printing "The spectrum is not 1D or
2D", its unconditional return statement reads the never-assigned locals
fig/ax and raises UnboundLocalError (the state is otherwise unchanged). -/
theorem plot_rank3_unbound_local :
    s3d.ndim = 3 ∧ plot_spectrum s3d 42 (11/10) = (s3d, some (PyError.unboundLocal "fig")) := by
  constructor
  · rfl
  · rfl

/-- C2 (counterexample): for sign = both the contour ladder is not
symmetric around the baseline: with baseline 1 (start level 2), nlevs 2,
factor 2, the levels are [-4, -2, 2, 4], and matching ends sum to 0, not
to twice the baseline.  Moreover, with factor 1 the first half is not
strictly increasing, so the claim also needs its parameter constraints. -/
theorem clevs_both_baseline_symmetry_false :
    sBothOne.sign = "both" ∧ sBothOne.baseline = 1 ∧
    clevsOf sBothOne 2 2 = [-4, -2, 2, 4] ∧
    (clevsOf sBothOne 2 2).getD 0 0 + (clevsOf sBothOne 2 2).getD 3 0 ≠
      2 * sBothOne.baseline ∧
    clevsOf sBothOne 2 1 = [-2, -2, 2, 2] ∧
    ¬((clevsOf sBothOne 2 1).getD 0 0 < (clevsOf sBothOne 2 1).getD 1 0) := by
  with_unfolding_all decide

/-- C2 (amended): for sign = both with a positive start level and factor
above 1, the ladder has length 2·nlevs, its first half is strictly
increasing negative values, its second half strictly increasing positive
values (the whole list is strictly increasing), and it is symmetric around
zero — around the baseline only when the baseline is zero, e.g. after
normalization. -/
theorem clevs_both_spec (s : Spectrum) (n : ℕ) (f : ℚ) (hsign : s.sign = "both")
    (hs : 0 < s.baseline + s.threshold * s.noise) (hf : 1 < f) :
    (clevsOf s n f).length = 2 * n ∧
    (∀ i, i < n → (clevsOf s n f).getD i 0 < 0) ∧
    (∀ i, n ≤ i → i < 2 * n → 0 < (clevsOf s n f).getD i 0) ∧
    (∀ i, i + 1 < 2 * n → (clevsOf s n f).getD i 0 < (clevsOf s n f).getD (i + 1) 0) ∧
    (∀ i, i < 2 * n →
      (clevsOf s n f).getD i 0 = -((clevsOf s n f).getD (2 * n - 1 - i) 0)) := by
  have hcl : clevsOf s n f =
      negClevs (s.baseline + s.threshold * s.noise) f n ++
        posClevs (s.baseline + s.threshold * s.noise) f n := by
    simp [clevsOf, calc_clevs, hsign]
  set st := s.baseline + s.threshold * s.noise with hst
  have hgetl : ∀ i, i < n →
      (negClevs st f n ++ posClevs st f n).getD i 0 = (negClevs st f n).getD i 0 := by
    intro i hi
    rw [List.getD_eq_getElem?_getD,
      List.getElem?_append_left (by rw [negClevs_length]; exact hi),
      ← List.getD_eq_getElem?_getD]
  have hgetr : ∀ i, n ≤ i →
      (negClevs st f n ++ posClevs st f n).getD i 0 = (posClevs st f n).getD (i - n) 0 := by
    intro i hi
    rw [List.getD_eq_getElem?_getD,
      List.getElem?_append_right (by rw [negClevs_length]; exact hi), negClevs_length,
      ← List.getD_eq_getElem?_getD]
  have hf0 : (0 : ℚ) < f := lt_trans zero_lt_one hf
  refine ⟨?_, ?_, ?_, ?_, ?_⟩
  · rw [hcl]
    simp [negClevs_length, posClevs_length]
    omega
  · intro i hi
    rw [hcl, hgetl i hi, negClevs_getD st f hi]
    have := mul_pos hs (pow_pos hf0 (n - 1 - i))
    linarith
  · intro i hni hi
    rw [hcl, hgetr i hni]
    exact posClevs_pos hs hf (by omega)
  · intro i hi
    rcases lt_trichotomy (i + 1) n with h | h | h
    · rw [hcl, hgetl i (by omega), hgetl (i + 1) h, negClevs_getD st f (by omega),
        negClevs_getD st f (by omega)]
      have he : n - 1 - i = (n - 1 - (i + 1)) + 1 := by omega
      rw [he]
      have := mul_lt_mul_of_pos_left (pow_lt_pow_succ hf (n - 1 - (i + 1))) hs
      linarith
    · rw [hcl, hgetl i (by omega), hgetr (i + 1) (by omega), negClevs_getD st f (by omega),
        posClevs_getD st f (show i + 1 - n < n by omega)]
      have h1 : n - 1 - i = 0 := by omega
      have h2 : i + 1 - n = 0 := by omega
      rw [h1, h2]
      have := mul_pos hs (pow_pos hf0 0)
      linarith
    · rw [hcl, hgetr i (by omega), hgetr (i + 1) (by omega),
        posClevs_getD st f (show i - n < n by omega),
        posClevs_getD st f (show i + 1 - n < n by omega)]
      have he : i + 1 - n = (i - n) + 1 := by omega
      rw [he]
      exact mul_lt_mul_of_pos_left (pow_lt_pow_succ hf (i - n)) hs
  · intro i hi
    rcases Nat.lt_or_ge i n with h | h
    · rw [hcl, hgetl i h, hgetr (2 * n - 1 - i) (by omega), negClevs_getD st f h,
        posClevs_getD st f (show 2 * n - 1 - i - n < n by omega)]
      have he : 2 * n - 1 - i - n = n - 1 - i := by omega
      rw [he]
    · rw [hcl, hgetr i h, hgetl (2 * n - 1 - i) (by omega),
        posClevs_getD st f (show i - n < n by omega),
        negClevs_getD st f (show 2 * n - 1 - i < n by omega)]
      have he : n - 1 - (2 * n - 1 - i) = i - n := by omega
      rw [he, neg_neg]

/-- C2 (witness): the both-sign ladder at start level 1, nlevs 2,
factor 2 has length 4, a negative first entry, a positive third entry,
and end-symmetry around zero. -/
theorem clevs_both_spec_witness :
    (clevsOf sBothZero 2 2).length = 4 ∧ (clevsOf sBothZero 2 2).getD 0 0 < 0 ∧
    0 < (clevsOf sBothZero 2 2).getD 2 0 ∧
    (clevsOf sBothZero 2 2).getD 0 0 = -((clevsOf sBothZero 2 2).getD 3 0) := by
  have h := clevs_both_spec sBothZero 2 2 rfl (by with_unfolding_all decide)
    (by with_unfolding_all decide)
  exact ⟨by simpa using h.1, h.2.1 0 (by norm_num), h.2.2.1 2 (by norm_num) (by norm_num),
    by simpa using h.2.2.2.2 0 (by norm_num)⟩

/-- C3 (counterexample): for sign = negative the returned levels do not
have ratio `factor` between consecutive entries: with start level 1,
nlevs 2, factor 2 the levels are [-2, -1] and -1 is not 2·(-2) (the
actual ratio is 1/factor).  Also, with a negative start level
(baseline -1, zero threshold) the positive-sign levels [-1, -2] are not
ascending, so the claim also needs a positive start level. -/
theorem clevs_ratio_factor_false :
    sNegOne.sign = "negative" ∧
    clevsOf sNegOne 2 2 = [-2, -1] ∧
    (clevsOf sNegOne 2 2).getD 1 0 ≠ 2 * (clevsOf sNegOne 2 2).getD 0 0 ∧
    sPosNegStart.sign = "positive" ∧
    clevsOf sPosNegStart 2 2 = [-1, -2] ∧
    ¬((clevsOf sPosNegStart 2 2).getD 0 0 < (clevsOf sPosNegStart 2 2).getD 1 0) := by
  with_unfolding_all decide

/-- C3 (amended): with start level `baseline + threshold * noise`
positive, factor above 1 and nlevs at least 1: for sign = positive the
levels are exactly startLevel·factor^k for k below nlevs, strictly
ascending, with consecutive ratio `factor`; for sign = negative they are
those values negated and order-reversed, strictly ascending, with
consecutive ratio `1/factor` (the magnitudes grow by `factor` away from
the baseline; the claimed ratio `factor` holds only for the positive
branch). -/
theorem clevs_single_sign_spec (s : Spectrum) (n : ℕ) (f : ℚ)
    (hs : 0 < s.baseline + s.threshold * s.noise) (hf : 1 < f) (_hn : 1 ≤ n) :
    (s.sign = "positive" →
      (clevsOf s n f).length = n ∧
      (∀ i, i < n → (clevsOf s n f).getD i 0 =
        (s.baseline + s.threshold * s.noise) * f ^ i) ∧
      (∀ i, i + 1 < n → (clevsOf s n f).getD i 0 < (clevsOf s n f).getD (i + 1) 0) ∧
      (∀ i, i + 1 < n → (clevsOf s n f).getD (i + 1) 0 = f * (clevsOf s n f).getD i 0)) ∧
    (s.sign = "negative" →
      (clevsOf s n f).length = n ∧
      (∀ i, i < n → (clevsOf s n f).getD i 0 =
        -((s.baseline + s.threshold * s.noise) * f ^ (n - 1 - i))) ∧
      (∀ i, i + 1 < n → (clevsOf s n f).getD i 0 < (clevsOf s n f).getD (i + 1) 0) ∧
      (∀ i, i + 1 < n → f * (clevsOf s n f).getD (i + 1) 0 = (clevsOf s n f).getD i 0)) := by
  constructor
  · intro hsign
    have hcl : clevsOf s n f = posClevs (s.baseline + s.threshold * s.noise) f n := by
      simp [clevsOf, calc_clevs, hsign]
    refine ⟨by rw [hcl, posClevs_length], fun i hi => by rw [hcl, posClevs_getD _ f hi],
      fun i hi => ?_, fun i hi => ?_⟩
    · rw [hcl, posClevs_getD _ f (show i < n by omega),
        posClevs_getD _ f (show i + 1 < n by omega)]
      exact mul_lt_mul_of_pos_left (pow_lt_pow_succ hf i) hs
    · rw [hcl, posClevs_getD _ f (show i + 1 < n by omega),
        posClevs_getD _ f (show i < n by omega)]
      ring
  · intro hsign
    have hcl : clevsOf s n f = negClevs (s.baseline + s.threshold * s.noise) f n := by
      simp [clevsOf, calc_clevs, hsign]
    refine ⟨by rw [hcl, negClevs_length], fun i hi => by rw [hcl, negClevs_getD _ f hi],
      fun i hi => ?_, fun i hi => ?_⟩
    · rw [hcl, negClevs_getD _ f (show i < n by omega),
        negClevs_getD _ f (show i + 1 < n by omega)]
      have he : n - 1 - i = (n - 1 - (i + 1)) + 1 := by omega
      rw [he]
      have := mul_lt_mul_of_pos_left (pow_lt_pow_succ hf (n - 1 - (i + 1))) hs
      linarith
    · rw [hcl, negClevs_getD _ f (show i + 1 < n by omega),
        negClevs_getD _ f (show i < n by omega)]
      have he : n - 1 - i = (n - 1 - (i + 1)) + 1 := by omega
      rw [he]
      ring

/-- C3 (witness): at start level 1, nlevs 2, factor 2, the positive-sign
levels satisfy ratio 2 and the negative-sign levels satisfy ratio 1/2. -/
theorem clevs_single_sign_spec_witness :
    (clevsOf sPosOne 2 2).getD 1 0 = 2 * (clevsOf sPosOne 2 2).getD 0 0 ∧
    2 * (clevsOf sNegOne 2 2).getD 1 0 = (clevsOf sNegOne 2 2).getD 0 0 := by
  have hp := clevs_single_sign_spec sPosOne 2 2 (by with_unfolding_all decide)
    (by with_unfolding_all decide) (by norm_num)
  have hn := clevs_single_sign_spec sNegOne 2 2 (by with_unfolding_all decide)
    (by with_unfolding_all decide) (by norm_num)
  exact ⟨(hp.1 rfl).2.2.2 0 (by norm_num), (hn.2 rfl).2.2.2 0 (by norm_num)⟩

/-- C6 (counterexample): normalization is not idempotent.  At the
concrete state `sQuad` the first call succeeds and the recomputed
baseline is exactly 0; re-invoking normalization therefore divides by
the zero baseline: in numpy the data become non-finite and the baseline
recomputation raises the non-finite-range ValueError, rather than
leaving the state unchanged with baseline still 0 (the post-division
data also differs from the once-normalized data under any semantics of
the division). -/
theorem normalize_not_idempotent :
    (normalize_data sQuad).2 = none ∧
    (normalize_data sQuad).1.baseline = 0 ∧
    (normalize_data (normalize_data sQuad).1).2 = some PyError.nonFiniteRange ∧
    (normalize_data (normalize_data sQuad).1).1.data ≠ (normalize_data sQuad).1.data := by
  with_unfolding_all decide

/-- C6 (amended): for every state whose stored baseline matches the
recomputed baseline of its non-constant data and is nonzero,
normalization replaces the data by (data - baseline) / |baseline|, sets
the normalized flag, and the recomputed baseline is exactly 0 (the
affine rescaling maps every histogram bin onto the corresponding bin of
the new range, so the modal bin center lands on 0).  Because the new
baseline is exactly 0, a second invocation divides by zero instead of
being a no-op: the centering is exact, but not idempotent. -/
theorem normalize_recenters_exactly (s : Spectrum)
    (hb : s.baseline = calc_baseline s.data) (hb0 : s.baseline ≠ 0)
    (hne : listMin s.data < listMax s.data) :
    (normalize_data s).2 = none ∧
    (normalize_data s).1.data = s.data.map (fun x => (x - s.baseline) / |s.baseline|) ∧
    (normalize_data s).1.baseline = 0 ∧
    (normalize_data s).1.normalized = true := by
  have hc : 0 < |s.baseline| := abs_pos.mpr hb0
  have key := calc_baseline_affine s.data s.baseline |s.baseline| hc hne
  refine ⟨by simp [normalize_data, hb0], by simp [normalize_data, hb0], ?_,
    by simp [normalize_data, hb0]⟩
  have hbase : (normalize_data s).1.baseline =
      calc_baseline (s.data.map (fun x => (x - s.baseline) / |s.baseline|)) := by
    simp [normalize_data, hb0]
  rw [hbase, key, ← hb, sub_self, zero_div]

/-- C6 (witness): the exact recentering at the concrete state `sQuad`
(data [0,0,0,256], stored baseline 1/2 = its histogram-mode baseline). -/
theorem normalize_recenters_exactly_witness :
    (normalize_data sQuad).2 = none ∧
    (normalize_data sQuad).1.data =
      sQuad.data.map (fun x => (x - sQuad.baseline) / |sQuad.baseline|) ∧
    (normalize_data sQuad).1.baseline = 0 ∧
    (normalize_data sQuad).1.normalized = true :=
  normalize_recenters_exactly sQuad (by with_unfolding_all decide)
    (by with_unfolding_all decide) (by with_unfolding_all decide)

/-- C9: the flattened ppm ranges have length twice the number of
dimensions, each per-dimension adjacent pair is (high, low) with
high > low (given positive sweep width and observed frequency and at
least two points per dimension), and every later lifecycle operation
(normalization, noise/signal estimation, threshold computation,
contour-level generation, plotting) leaves the stored ppm ranges
unchanged. -/
theorem ppm_ranges_length_and_order (dims : List DimMeta)
    (h : ∀ d ∈ dims, 0 < d.sw ∧ 0 < d.obs ∧ 2 ≤ d.size) :
    (get_ppm_ranges dims).length = 2 * dims.length ∧
    (∀ i, i < dims.length →
      (get_ppm_ranges dims).getD (2 * i) 0 > (get_ppm_ranges dims).getD (2 * i + 1) 0) ∧
    (∀ (s : Spectrum) (nlevs : ℕ) (factor fq : ℚ),
      (normalize_data s).1.ppm_ranges = s.ppm_ranges ∧
      (calc_signal_to_noise s).ppm_ranges = s.ppm_ranges ∧
      (calc_threshold s fq).1.ppm_ranges = s.ppm_ranges ∧
      (calc_clevs s nlevs factor).1.ppm_ranges = s.ppm_ranges ∧
      (plot_spectrum s nlevs factor).1.ppm_ranges = s.ppm_ranges) := by
  refine ⟨?_, ?_, ?_⟩
  · rw [get_ppm_ranges, foldr_ppm_length, List.length_reverse]
  · intro i hi
    have hi2 : i < dims.reverse.length := by
      rwa [List.length_reverse]
    obtain ⟨h1, h2⟩ := foldr_ppm_getD dims.reverse i hi2
    rw [get_ppm_ranges, h1, h2]
    have hmem : dims.reverse.getD i ⟨0, 1, 0, 2⟩ ∈ dims := by
      rw [← List.mem_reverse]
      rw [List.getD_eq_getElem?_getD, List.getElem?_eq_getElem hi2]
      exact List.getElem_mem hi2
    obtain ⟨hsw, hobs, hsz⟩ := h _ hmem
    exact ppm_limits_gt _ hsw hobs hsz
  · intro s nlevs factor fq
    have hth : (calc_threshold s fq).1.ppm_ranges = s.ppm_ranges := by
      by_cases h1 : s.sign = "both"
      · simp [calc_threshold, h1]
      by_cases h2 : s.sign = "positive"
      · simp [calc_threshold, h1, h2]
      by_cases h3 : s.sign = "negative"
      · simp [calc_threshold, h1, h2, h3]
      · simp [calc_threshold, h1, h2, h3]
    have hcl : (calc_clevs s nlevs factor).1.ppm_ranges = s.ppm_ranges := by
      by_cases h1 : s.sign = "both"
      · simp [calc_clevs, h1]
      by_cases h2 : s.sign = "positive"
      · simp [calc_clevs, h1, h2]
      by_cases h3 : s.sign = "negative"
      · simp [calc_clevs, h1, h2, h3]
      · simp [calc_clevs, h1, h2, h3]
    refine ⟨?_, rfl, hth, hcl, ?_⟩
    · by_cases h0 : s.baseline = 0
      · simp [normalize_data, h0]
      · simp [normalize_data, h0]
    · by_cases hd1 : s.ndim = 1
      · simp [plot_spectrum, hd1]
      by_cases hd2 : s.ndim = 2
      · simpa [plot_spectrum, hd1, hd2] using hcl
      · simp [plot_spectrum, hd1, hd2]

/-- C9 (witness): for the single dimension with sweep width 2, observed
frequency 1, carrier 10 and 4 points, the ranges are two values with the
first strictly greater than the second. -/
theorem ppm_ranges_length_and_order_witness :
    (get_ppm_ranges [dim1]).length = 2 ∧
    (get_ppm_ranges [dim1]).getD 0 0 > (get_ppm_ranges [dim1]).getD 1 0 := by
  have h := ppm_ranges_length_and_order [dim1]
    (by intro d hd; rw [List.mem_singleton] at hd; subst hd
        refine ⟨?_, ?_, ?_⟩ <;> with_unfolding_all decide)
  exact ⟨by simpa using h.1, by simpa using h.2.1 0 (by norm_num)⟩

end Nmrplot
